import Mathlib

/-!
Verification of the Patho-Annotation batch-extraction pipeline.

This file shallowly embeds the data model and the algorithmic parts of the
annotation tool (chunked batch orchestration, geometric cropping, the
draft/confirmed two-store persistence model, diagnostic-basis content
serialization, the unified history view and the export transformation) and
proves or refutes the frozen claims about them.

Conventions of the embedding:
* TypeScript strings are Lean `String`s; enum-typed fields that TypeScript
  erases at runtime (the magnification of an image region) are kept as
  `String`, because the source code can store out-of-enum strings in them.
* Timestamps (`submittedAt` ISO strings, read back through `new Date(...)
  .getTime()`) are modelled as `Option Nat`: `none` is an absent timestamp,
  which the source turns into the epoch `0`.
* IndexedDB object stores are association lists `List (String × ρ)` whose
  keys are unique in any reachable state; `put` is `upsert`, `delete` is
  `eraseKey`, `getAll` is the list of values.
* JSON serialization of the four-field diagnostic-basis record is modelled
  by the constructor `StoredContent.json` (JSON.stringify followed by
  JSON.parse is the identity on such records), and a plain text content by
  `StoredContent.text`.
-/

/-- The seven fixed text-section labels (enum `TextLabel` in types.ts). -/
inductive TextLabel where
  | PATIENT_DATA
  | GROSS_EXAM
  | IHC_TEXT
  | DIAGNOSIS
  | DIAGNOSTIC_BASIS
  | DIFFERENTIAL
  | KNOWLEDGE
deriving DecidableEq, Repr

/-- The four optional sub-fields of a structured diagnostic-basis content
(`DiagnosticBasisStructured` in TextEntry.tsx). -/
structure DiagnosticBasisStructured where
  gross : String
  he : String
  ihc : String
  general : String
deriving DecidableEq, Repr

/-- The content of a text section: either a plain string or the JSON
serialization of a structured diagnostic basis.  `json b` stands for the
string `JSON.stringify b`, which `JSON.parse` maps back to `b`. -/
inductive StoredContent where
  | text (s : String)
  | json (b : DiagnosticBasisStructured)
deriving DecidableEq, Repr

/-- A text section of a case record (`TextRecord` in types.ts). -/
structure TextRecord where
  id : String
  label : TextLabel
  content : StoredContent
deriving DecidableEq, Repr

/-- A normalized bounding box `[ymin, xmin, ymax, xmax]` on the 0–1000 scale
(the `box_2d` field of a detected image region). -/
structure Box where
  ymin : ℚ
  xmin : ℚ
  ymax : ℚ
  xmax : ℚ
deriving DecidableEq, Repr

/-- The inputs of one invocation of `cropImageByCoordinates`: which source
image bytes were cropped, with which mime type and which box.  The pixel
payload of the cropper (a canvas `toDataURL` result) is outside the
embedding, so an `ImageRecord`'s data-URI payload is represented by the crop
call that produced it. -/
structure CropCall where
  sourceData : String
  sourceType : String
  box : Box
deriving DecidableEq, Repr

/-- An image entry of a case record (`ImageRecord` in types.ts).  `type` and
`magnification` are runtime strings ('HE染色'/'免疫组化' and 'x10'…'其他'):
TypeScript's enums are erased, and the magnification assignment in
`processBatchSequentially` is a bare cast that can let out-of-enum strings
through, so `String` is the faithful type. -/
structure ImageRecord where
  id : String
  crop : CropCall
  fileName : String
  type : String
  magnification : String
  description : String
deriving DecidableEq, Repr

/-- The runtime string values of `Object.values(Magnification)`. -/
def magEnum : List String := ["x10", "x20", "x40", "x100", "x200", "x400", "其他"]

/-- The runtime string values of `Object.values(ImageType)`. -/
def imageTypeEnum : List String := ["HE染色", "免疫组化"]

/-- A case record (`CaseRecord` in types.ts); this is the shape of a
confirmed entry, which has no draft `id` and no `status` field. -/
structure CaseRecord where
  caseId : String
  userId : String
  username : Option String
  organCategory : String
  textSections : List TextRecord
  images : List ImageRecord
  submittedAt : Option Nat
  updatedAt : Option Nat
deriving DecidableEq, Repr

/-- A draft record (`DraftRecord` in the main file): a `CaseRecord` plus the
local draft identity `id`.  The `status : 'draft'` literal field carries no
information (it is the same on every draft) and is represented by the type
itself. -/
structure DraftRecord extends CaseRecord where
  id : String
deriving DecidableEq, Repr

/-- A queued page image awaiting extraction (`QueuedImage` in the main
file). -/
structure QueuedImage where
  id : String
  data : String
  type : String
  name : String
  selected : Bool
deriving DecidableEq, Repr

/-- The pages the batch run will process: `queuedImages.filter(img =>
img.selected)` in `processBatchSequentially`. -/
def selectedPages (qs : List QueuedImage) : List QueuedImage :=
  qs.filter (·.selected)

/-- The chunking loop of `processBatchSequentially` with `CHUNK_SIZE = 2`:
`for (let i = 0; i < n; i += 2) chunk = slice(i, i + 2)`. -/
def chunksOf2 : List α → List (List α)
  | [] => []
  | [a] => [[a]]
  | a :: b :: rest => [a, b] :: chunksOf2 rest

/-- The geometric part of `cropImageByCoordinates`: the source-space crop
rectangle and the canvas dimensions.  The canvas dimensions are the crop
dimensions clamped below by 1 (`Math.max(1, width)` / `Math.max(1, height)`);
the coercion of the canvas dimension to an integer pixel count is the
"within rounding" allowance of the spec and is not modelled. -/
structure CropOutput where
  x : ℚ
  y : ℚ
  width : ℚ
  height : ℚ
  canvasWidth : ℚ
  canvasHeight : ℚ
deriving DecidableEq, Repr

/-- `cropImageByCoordinates` (main file, lines 51–69): scale the normalized
box `[ymin, xmin, ymax, xmax]` (0–1000) to absolute pixels of a source image
of dimensions `imgWidth × imgHeight`, clamping the output canvas to at least
1×1. -/
def cropImageByCoordinates (imgWidth imgHeight : ℚ) (b : Box) : CropOutput :=
  let x := b.xmin / 1000 * imgWidth
  let y := b.ymin / 1000 * imgHeight
  let width := (b.xmax - b.xmin) / 1000 * imgWidth
  let height := (b.ymax - b.ymin) / 1000 * imgHeight
  { x := x, y := y, width := width, height := height,
    canvasWidth := max 1 width, canvasHeight := max 1 height }

/-- Association-list lookup by key, the model of reading one record of an
IndexedDB object store. -/
def lookupKey [DecidableEq κ] (k : κ) : List (κ × ρ) → Option ρ
  | [] => none
  | (k2, v) :: rest => if k2 = k then some v else lookupKey k rest

/-- Association-list upsert, the model of `objectStore.put`: replace the
entry with the same key if present, append otherwise. -/
def upsert [DecidableEq κ] (k : κ) (v : ρ) : List (κ × ρ) → List (κ × ρ)
  | [] => [(k, v)]
  | (k2, v2) :: rest => if k2 = k then (k, v) :: rest else (k2, v2) :: upsert k v rest

/-- Association-list deletion by key, the model of `objectStore.delete`. -/
def eraseKey [DecidableEq κ] (k : κ) (l : List (κ × ρ)) : List (κ × ρ) :=
  l.filter (fun p => p.1 ≠ k)

/-- The two persisted collections: `cases` keyed by `caseId` (keyPath
'caseId') and `drafts` keyed by the draft `id` (keyPath 'id'), as created by
`initDB`. -/
structure AppDB where
  cases : List (String × CaseRecord)
  drafts : List (String × DraftRecord)
deriving DecidableEq, Repr

/-- The confirmation-stamped copy built by `handleCaseSubmit`:
`{ ...currentCase, submittedAt: now }` with the draft-only fields `id` and
`status` deleted — which is exactly the underlying `CaseRecord` with a fresh
`submittedAt`. -/
def confirmOf (d : DraftRecord) (now : Nat) : CaseRecord :=
  { d.toCaseRecord with submittedAt := some now }

/-- `handleCaseSubmit` (main file, lines 272–283): if there is no current
draft, do nothing; otherwise put the confirmation-stamped copy into the
confirmed collection (keyed by its `caseId`) and delete the draft from the
draft collection by its draft `id`. -/
def handleCaseSubmit (current : Option DraftRecord) (now : Nat) (db : AppDB) : AppDB :=
  match current with
  | none => db
  | some d =>
      { cases := upsert d.caseId (confirmOf d now) db.cases,
        drafts := eraseKey d.id db.drafts }

/-- A user-facing toast: `setNotification` carries either the generic
success message or the generic failure message ('处理异常。'). -/
inductive Note where
  | success
  | error
deriving DecidableEq, Repr

/-- The state touched by the batch loop of `processBatchSequentially`: the
persisted draft store, the in-memory draft list, the page queue and the
current notification. -/
structure BatchState where
  draftsStore : List (String × DraftRecord)
  draftsMem : List DraftRecord
  queue : List QueuedImage
  note : Option Note
deriving DecidableEq, Repr

/-- Persisting one chunk's drafts: each synthesized draft is written with
`saveToDB(STORE_DRAFTS, newDraft)`, i.e. `put` keyed by the draft id. -/
def persistChunk (ds : List DraftRecord) (store : List (String × DraftRecord)) :
    List (String × DraftRecord) :=
  ds.foldl (fun acc d => upsert d.id d acc) store

/-- The control flow of the batch loop of `processBatchSequentially`, with
the extraction call and draft synthesis of each chunk abstracted into that
chunk's outcome: `some ds` is a successful chunk whose parsed response
synthesized the drafts `ds`, `none` a chunk whose awaited extraction call
threw.  Sequentially: a successful chunk persists and appends its drafts and
the loop continues; the first failing chunk jumps to the `catch` block,
which only sets the generic failure notification; if every chunk succeeds
the queue is cleared and the success notification is set. -/
def runBatch : List (Option (List DraftRecord)) → BatchState → BatchState
  | [], st => { st with queue := [], note := some .success }
  | none :: _, st => { st with note := some .error }
  | some ds :: rest, st =>
      runBatch rest { st with draftsStore := persistChunk ds st.draftsStore,
                              draftsMem := st.draftsMem ++ ds }

/-- A detected image region of an extraction response.  All fields are
optional or plain strings: the response schema constrains them only on the
model side, so the client may receive anything. -/
structure DetectedImage where
  box_2d : Option Box
  type : String
  magnification : Option String
  description : Option String
  originalImageIndex : Option Int
deriving DecidableEq, Repr

/-- The per-region `ImageRecord` synthesis of `processBatchSequentially`
(lines 209–221): `const source = chunk[imgInfo.originalImageIndex ?? 0]`
(a missing index defaults to 0; an out-of-range index makes `source`
undefined), `if (!source || !imgInfo.box_2d) return null`, then the cropper
is invoked on the chunk page `source` and the record is built with the stain
type coerced into {HE染色, 免疫组化} and the magnification defaulted to 其他
only when falsy (absent or empty). -/
def buildImage (uuid : String) (chunk : List QueuedImage) (info : DetectedImage) :
    Option ImageRecord :=
  let idx : Int := info.originalImageIndex.getD 0
  let source? : Option QueuedImage := if 0 ≤ idx then chunk[idx.toNat]? else none
  match source?, info.box_2d with
  | some source, some box =>
      some { id := uuid
             crop := { sourceData := source.data, sourceType := source.type, box := box }
             fileName := "Auto_" ++ source.name
             type := if info.type = "免疫组化" then "免疫组化" else "HE染色"
             magnification :=
               match info.magnification with
               | none => "其他"
               | some s => if s = "" then "其他" else s
             description := info.description.getD "" }
  | _, _ => none

/-- The image list of one synthesized draft:
`(await Promise.all(imagePromises)).filter(img => img !== null)` — each
region is built with a fresh uuid and the dropped regions (`null`) are
filtered out. -/
def assembleImages (uuids : Nat → String) (chunk : List QueuedImage)
    (infos : List DetectedImage) : List ImageRecord :=
  infos.enum.filterMap (fun p => buildImage (uuids p.1) chunk p.2)

/-- The save decision of `handleStructuredChange` (TextEntry.tsx, lines
43–53): if any of the gross/HE/IHC sub-fields is truthy (non-empty), store
the JSON serialization of the whole four-field record; otherwise store the
general text as plain content. -/
def saveBasis (next : DiagnosticBasisStructured) : StoredContent :=
  if next.gross ≠ "" ∨ next.he ≠ "" ∨ next.ihc ≠ "" then .json next
  else .text next.general

/-- The read-back of a diagnostic-basis content (the `useState` initializer
of TextEntry.tsx, lines 24–41): a content that parses as a JSON object
yields its four sub-fields (absent ones default to ''); otherwise the whole
content becomes the general text with the three sub-fields empty. -/
def readBasis : StoredContent → DiagnosticBasisStructured
  | .json b => ⟨b.gross, b.he, b.ihc, b.general⟩
  | .text s => ⟨"", "", "", s⟩

/-- One entry of the unified history view, tagged with its provenance:
`{ ...c, status: 'confirmed' }` or `{ ...d, status: 'draft' }`. -/
inductive HistoryItem where
  | confirmedItem (c : CaseRecord)
  | draftItem (d : DraftRecord)
deriving DecidableEq, Repr

/-- The sort key of the unified history:
`new Date(x.submittedAt || 0).getTime()` — an absent timestamp reads as the
epoch 0. -/
def itemTime : HistoryItem → Nat
  | .confirmedItem c => c.submittedAt.getD 0
  | .draftItem d => d.submittedAt.getD 0

/-- The descending-timestamp comparator of the unified history sort. -/
def histDesc (a b : HistoryItem) : Prop := itemTime b ≤ itemTime a

instance : DecidableRel histDesc := fun a b => Nat.decLe _ _

instance : IsTotal HistoryItem histDesc :=
  ⟨fun a b => Nat.le_total (itemTime b) (itemTime a)⟩

instance : IsTrans HistoryItem histDesc :=
  ⟨fun _ _ _ hab hbc => le_trans hbc hab⟩

/-- `unifiedHistory` (main file, lines 110–114): tag the confirmed records
and the drafts with their provenance, concatenate (confirmed first), and
sort by timestamp descending. -/
def unifiedHistory (confirmed : List CaseRecord) (drafts : List DraftRecord) :
    List HistoryItem :=
  List.insertionSort histDesc
    (confirmed.map HistoryItem.confirmedItem ++ drafts.map HistoryItem.draftItem)

/-- `handleDraftDelete` (main file, lines 285–289): delete the draft with
the given id from the persisted draft store and filter it out of the
in-memory draft list. -/
def handleDraftDelete (did : String) (store : List (String × DraftRecord))
    (mem : List DraftRecord) : List (String × DraftRecord) × List DraftRecord :=
  (eraseKey did store, mem.filter (·.id ≠ did))

/-- The value placed in the exported `sections` object for one text section
(`processContent` in JSONPreview.tsx): a diagnostic-basis content that
parses as a JSON object is exported as the parsed object, anything else as
the raw content string. -/
inductive ExportVal where
  | raw (c : StoredContent)
  | parsed (b : DiagnosticBasisStructured)
deriving DecidableEq, Repr

/-- `processContent` (JSONPreview.tsx, lines 11–21). -/
def processContent (label : TextLabel) (c : StoredContent) : ExportVal :=
  if label = TextLabel.DIAGNOSTIC_BASIS then
    match c with
    | .json b => .parsed b
    | .text s => .raw (.text s)
  else .raw c

/-- The `sections` object of `exportData` (JSONPreview.tsx, lines 42–45):
`textSections.reduce((acc, curr) => { acc[curr.label] = processContent(...);
return acc }, {})` — a left fold over the sections in order, assigning (and
thus overwriting) the property named by the section's label.  The
association list keeps the JS object's property insertion order. -/
def exportSections (secs : List TextRecord) : List (TextLabel × ExportVal) :=
  secs.foldl (fun acc s => upsert s.label (processContent s.label s.content) acc) []

theorem chunksOf2_flatten : ∀ xs : List α, (chunksOf2 xs).flatten = xs
  | [] => rfl
  | [_] => rfl
  | _ :: _ :: rest => by
    simp [chunksOf2, chunksOf2_flatten rest]

theorem chunksOf2_length : ∀ xs : List α, (chunksOf2 xs).length = (xs.length + 1) / 2
  | [] => by simp [chunksOf2]
  | [_] => by simp [chunksOf2]
  | _ :: _ :: rest => by
    simp only [chunksOf2, List.length_cons, chunksOf2_length rest]
    omega

theorem chunksOf2_size_le : ∀ xs : List α, ∀ c ∈ chunksOf2 xs, c.length ≤ 2
  | [] => by simp [chunksOf2]
  | [a] => by simp [chunksOf2]
  | a :: b :: rest => by
    intro c hc
    simp only [chunksOf2, List.mem_cons] at hc
    rcases hc with rfl | hc
    · simp
    · exact chunksOf2_size_le rest c hc

/-- C1: for every selection of N queued pages (N > 0), the batch
orchestrator partitions the selected pages into exactly ⌈N/2⌉ chunks
(`(N + 1) / 2` in natural-number division) each of size at most 2, and
concatenating the chunks in processing order reproduces the selection
order exactly. -/
theorem batch_chunking_correct (qs : List QueuedImage)
    (h : 0 < (selectedPages qs).length) :
    (chunksOf2 (selectedPages qs)).length = ((selectedPages qs).length + 1) / 2 ∧
    (chunksOf2 (selectedPages qs)).flatten = selectedPages qs ∧
    ∀ c ∈ chunksOf2 (selectedPages qs), c.length ≤ 2 :=
  ⟨chunksOf2_length _, chunksOf2_flatten _, chunksOf2_size_le _⟩

/-- Concrete instantiation of `batch_chunking_correct` on a three-page
selection. -/
theorem batch_chunking_correct_witness :
    0 < (selectedPages [⟨"a", "d1", "image/jpeg", "p1", true⟩,
                        ⟨"b", "d2", "image/jpeg", "p2", false⟩,
                        ⟨"c", "d3", "image/jpeg", "p3", true⟩,
                        ⟨"d", "d4", "image/jpeg", "p4", true⟩]).length ∧
    (chunksOf2 (selectedPages [⟨"a", "d1", "image/jpeg", "p1", true⟩,
                        ⟨"b", "d2", "image/jpeg", "p2", false⟩,
                        ⟨"c", "d3", "image/jpeg", "p3", true⟩,
                        ⟨"d", "d4", "image/jpeg", "p4", true⟩])).length = 2 := by
  refine ⟨by decide, ?_⟩
  have h := batch_chunking_correct [⟨"a", "d1", "image/jpeg", "p1", true⟩,
                        ⟨"b", "d2", "image/jpeg", "p2", false⟩,
                        ⟨"c", "d3", "image/jpeg", "p3", true⟩,
                        ⟨"d", "d4", "image/jpeg", "p4", true⟩] (by decide)
  rw [h.1]
  decide

/-- C2: for every source image of dimensions W × H and every normalized box
with 0 ≤ ymin ≤ ymax ≤ 1000 and 0 ≤ xmin ≤ xmax ≤ 1000, the cropper's
output width is ((xmax − xmin)/1000)·W and its height ((ymax − ymin)/1000)·H
whenever those proportional values reach the 1-pixel floor, and a degenerate
box of zero width or height yields the corresponding dimension clamped to
exactly 1 pixel; the output dimensions are always at least 1, so no box
fails. -/
theorem cropper_dimensions (W H : ℚ) (b : Box)
    (hW : 0 ≤ W) (hH : 0 ≤ H)
    (hx0 : 0 ≤ b.xmin) (hx : b.xmin ≤ b.xmax) (hx1 : b.xmax ≤ 1000)
    (hy0 : 0 ≤ b.ymin) (hy : b.ymin ≤ b.ymax) (hy1 : b.ymax ≤ 1000) :
    (1 ≤ (b.xmax - b.xmin) / 1000 * W →
      (cropImageByCoordinates W H b).canvasWidth = (b.xmax - b.xmin) / 1000 * W) ∧
    (b.xmax = b.xmin → (cropImageByCoordinates W H b).canvasWidth = 1) ∧
    (1 ≤ (b.ymax - b.ymin) / 1000 * H →
      (cropImageByCoordinates W H b).canvasHeight = (b.ymax - b.ymin) / 1000 * H) ∧
    (b.ymax = b.ymin → (cropImageByCoordinates W H b).canvasHeight = 1) ∧
    1 ≤ (cropImageByCoordinates W H b).canvasWidth ∧
    1 ≤ (cropImageByCoordinates W H b).canvasHeight := by
  refine ⟨fun h1 => ?_, fun hdeg => ?_, fun h1 => ?_, fun hdeg => ?_, ?_, ?_⟩
  · simpa [cropImageByCoordinates] using max_eq_right h1
  · simp [cropImageByCoordinates, hdeg]
  · simpa [cropImageByCoordinates] using max_eq_right h1
  · simp [cropImageByCoordinates, hdeg]
  · exact le_max_left _ _
  · exact le_max_left _ _

/-- Concrete instantiation of `cropper_dimensions`: an 800 × 600 source with
box (ymin 0, xmin 0, ymax 500, xmax 250) crops to a 200-wide, 300-tall
canvas, and a zero-width box clamps to width 1. -/
theorem cropper_dimensions_witness :
    (cropImageByCoordinates 800 600 ⟨0, 0, 500, 250⟩).canvasWidth = 200 ∧
    (cropImageByCoordinates 800 600 ⟨0, 0, 500, 250⟩).canvasHeight = 300 ∧
    (cropImageByCoordinates 800 600 ⟨0, 250, 500, 250⟩).canvasWidth = 1 := by
  have h1 := cropper_dimensions 800 600 ⟨0, 0, 500, 250⟩
    (by norm_num) (by norm_num) (by norm_num) (by norm_num) (by norm_num)
    (by norm_num) (by norm_num) (by norm_num)
  have h2 := cropper_dimensions 800 600 ⟨0, 250, 500, 250⟩
    (by norm_num) (by norm_num) (by norm_num) (by norm_num) (by norm_num)
    (by norm_num) (by norm_num) (by norm_num)
  refine ⟨?_, ?_, ?_⟩
  · have := h1.1 (by norm_num)
    rw [this]; norm_num
  · have := h1.2.2.1 (by norm_num)
    rw [this]; norm_num
  · exact h2.2.1 rfl

theorem lookupKey_eraseKey [DecidableEq κ] (k : κ) :
    ∀ l : List (κ × ρ), lookupKey k (eraseKey k l) = none
  | [] => rfl
  | (k2, v) :: rest => by
    by_cases h : k2 = k
    · simpa [eraseKey, h] using lookupKey_eraseKey k rest
    · simpa [eraseKey, h, lookupKey] using lookupKey_eraseKey k rest

theorem lookupKey_upsert_self [DecidableEq κ] (k : κ) (v : ρ) :
    ∀ l : List (κ × ρ), lookupKey k (upsert k v l) = some v
  | [] => by simp [upsert, lookupKey]
  | (k2, v2) :: rest => by
    by_cases h : k2 = k
    · simp [upsert, h, lookupKey]
    · simpa [upsert, h, lookupKey] using lookupKey_upsert_self k v rest

theorem lookupKey_upsert_ne [DecidableEq κ] {k k' : κ} (hne : k' ≠ k) (v : ρ) :
    ∀ l : List (κ × ρ), lookupKey k' (upsert k v l) = lookupKey k' l
  | [] => by
    have h : ¬k = k' := fun h => hne h.symm
    simp [upsert, lookupKey, h]
  | (k2, v2) :: rest => by
    by_cases h : k2 = k
    · subst h
      have h2 : ¬k2 = k' := fun h => hne h.symm
      simp [upsert, lookupKey, h2]
    · simp only [upsert, if_neg h, lookupKey]
      rw [lookupKey_upsert_ne hne v rest]

theorem count_keys_upsert [DecidableEq κ] (k : κ) (v : ρ) :
    ∀ l : List (κ × ρ), (l.map Prod.fst).Nodup →
      ((upsert k v l).map Prod.fst).count k = 1
  | [], _ => by simp [upsert]
  | (k2, v2) :: rest, hnd => by
    simp only [List.map_cons, List.nodup_cons] at hnd
    by_cases h : k2 = k
    · subst h
      have hz : (rest.map Prod.fst).count k2 = 0 :=
        List.count_eq_zero_of_not_mem hnd.1
      simp [upsert, List.count_cons, hz]
    · have := count_keys_upsert k v rest hnd.2
      simp [upsert, h, List.count_cons, this, Ne.symm h]

theorem keys_upsert_of_mem [DecidableEq κ] (k : κ) (v : ρ) :
    ∀ l : List (κ × ρ), k ∈ l.map Prod.fst →
      (upsert k v l).map Prod.fst = l.map Prod.fst
  | [], hmem => by simp at hmem
  | (k2, v2) :: rest, hmem => by
    by_cases h : k2 = k
    · simp [upsert, h]
    · simp only [List.map_cons, List.mem_cons] at hmem
      rcases hmem with rfl | hmem
      · exact absurd rfl h
      · simp [upsert, h, keys_upsert_of_mem k v rest hmem]

theorem mem_keys_upsert [DecidableEq κ] (k : κ) (v : ρ) :
    ∀ l : List (κ × ρ), k ∈ (upsert k v l).map Prod.fst
  | [] => by simp [upsert]
  | (k2, v2) :: rest => by
    by_cases h : k2 = k
    · simp [upsert, h]
    · simpa [upsert, h] using Or.inr (mem_keys_upsert k v rest)

/-- C3: confirming the current draft deletes it from the draft collection,
leaves exactly one confirmed entry keyed by the draft's `caseId`, and that
entry is `confirmOf d now` — a plain `CaseRecord`, which by construction has
no draft `id` and no `status` field; confirming a second draft carrying the
same `caseId` leaves the confirmed collection's key list unchanged
(overwrite, not duplicate).  The `Nodup` hypothesis is the IndexedDB
invariant that store keys are unique. -/
theorem confirm_moves_draft (db : AppDB) (d d2 : DraftRecord) (now now2 : Nat)
    (hkeys : (db.cases.map Prod.fst).Nodup) (hid : d2.caseId = d.caseId) :
    lookupKey d.id (handleCaseSubmit (some d) now db).drafts = none ∧
    ((handleCaseSubmit (some d) now db).cases.map Prod.fst).count d.caseId = 1 ∧
    lookupKey d.caseId (handleCaseSubmit (some d) now db).cases
      = some (confirmOf d now) ∧
    ((handleCaseSubmit (some d2) now2 (handleCaseSubmit (some d) now db)).cases.map
        Prod.fst)
      = ((handleCaseSubmit (some d) now db).cases.map Prod.fst) := by
  refine ⟨?_, ?_, ?_, ?_⟩
  · exact lookupKey_eraseKey d.id db.drafts
  · exact count_keys_upsert d.caseId (confirmOf d now) db.cases hkeys
  · exact lookupKey_upsert_self d.caseId (confirmOf d now) db.cases
  · simp only [handleCaseSubmit]
    rw [hid]
    exact keys_upsert_of_mem d.caseId (confirmOf d2 now2) _
      (mem_keys_upsert d.caseId (confirmOf d now) db.cases)

/-- Concrete instantiation of `confirm_moves_draft` on a store holding one
unrelated confirmed case and the draft being confirmed. -/
theorem confirm_moves_draft_witness :
    lookupKey "draft-1"
      (handleCaseSubmit
        (some ⟨⟨"Case-1-2", "u1", none, "肝脏", [], [], some 5, none⟩, "draft-1"⟩) 9
        ⟨[("Case-0-0", ⟨"Case-0-0", "u1", none, "", [], [], some 3, none⟩)],
         [("draft-1", ⟨⟨"Case-1-2", "u1", none, "肝脏", [], [], some 5, none⟩, "draft-1"⟩)]⟩).drafts
      = none ∧
    ((handleCaseSubmit
        (some ⟨⟨"Case-1-2", "u1", none, "肝脏", [], [], some 5, none⟩, "draft-1"⟩) 9
        ⟨[("Case-0-0", ⟨"Case-0-0", "u1", none, "", [], [], some 3, none⟩)],
         [("draft-1", ⟨⟨"Case-1-2", "u1", none, "肝脏", [], [], some 5, none⟩, "draft-1"⟩)]⟩).cases.map
        Prod.fst).count "Case-1-2" = 1 := by
  have h := confirm_moves_draft
    ⟨[("Case-0-0", ⟨"Case-0-0", "u1", none, "", [], [], some 3, none⟩)],
     [("draft-1", ⟨⟨"Case-1-2", "u1", none, "肝脏", [], [], some 5, none⟩, "draft-1"⟩)]⟩
    ⟨⟨"Case-1-2", "u1", none, "肝脏", [], [], some 5, none⟩, "draft-1"⟩
    ⟨⟨"Case-1-2", "u1", none, "消化道", [], [], some 7, none⟩, "draft-2"⟩
    9 11 (by decide) rfl
  exact ⟨h.1, h.2.1⟩

theorem runBatch_append_some :
    ∀ (oks : List (List DraftRecord)) (l : List (Option (List DraftRecord)))
      (st : BatchState),
      runBatch (oks.map some ++ l) st =
        runBatch l
          { st with
            draftsStore := oks.foldl (fun acc ds => persistChunk ds acc) st.draftsStore,
            draftsMem := st.draftsMem ++ oks.flatten }
  | [], l, st => by simp
  | ds :: oks, l, st => by
    have step : runBatch ((ds :: oks).map some ++ l) st
        = runBatch (oks.map some ++ l)
            { st with draftsStore := persistChunk ds st.draftsStore,
                      draftsMem := st.draftsMem ++ ds } := rfl
    rw [step, runBatch_append_some oks l]
    congr 1
    simp [List.append_assoc]

/-- C4: when the chunks before some chunk all succeed and that chunk throws,
the batch run is independent of everything after the failing chunk (no
further chunk is processed), ends with exactly the generic failure
notification, leaves the page queue untouched, keeps every draft persisted
by the completed chunks in the draft store (no rollback), and likewise keeps
them in the in-memory list. -/
theorem batch_failure_semantics (oks : List (List DraftRecord))
    (rest : List (Option (List DraftRecord))) (st : BatchState) :
    runBatch (oks.map some ++ none :: rest) st
      = runBatch (oks.map some ++ [none]) st ∧
    (runBatch (oks.map some ++ none :: rest) st).note = some .error ∧
    (runBatch (oks.map some ++ none :: rest) st).queue = st.queue ∧
    (runBatch (oks.map some ++ none :: rest) st).draftsStore
      = oks.foldl (fun acc ds => persistChunk ds acc) st.draftsStore ∧
    (runBatch (oks.map some ++ none :: rest) st).draftsMem
      = st.draftsMem ++ oks.flatten := by
  rw [runBatch_append_some, runBatch_append_some]
  exact ⟨rfl, rfl, rfl, rfl, rfl⟩

/-- C5 counterexample: a region whose `originalImageIndex` is missing is NOT
ignored, contrary to the claim: with a one-page chunk and a present box,
`chunk[imgInfo.originalImageIndex ?? 0]` defaults the index to 0, and the
builder produces an image record cropped from the chunk's first page. -/
theorem missing_index_not_dropped_counterexample :
    buildImage "u" [⟨"pid", "PAGEDATA", "image/jpeg", "p1", true⟩]
        ⟨some ⟨0, 0, 100, 100⟩, "HE染色", some "x10", some "desc", none⟩
      = some { id := "u",
               crop := { sourceData := "PAGEDATA", sourceType := "image/jpeg",
                         box := ⟨0, 0, 100, 100⟩ },
               fileName := "Auto_p1", type := "HE染色",
               magnification := "x10", description := "desc" } := by
  decide

/-- C5 (amended): each detected region's declared source-page index is
interpreted as an index into the current chunk (the page looked up is
`chunk[idx]`, not a global-queue entry); an out-of-range index (negative or
at least the chunk length) drops the region, and so does a missing bounding
box; but a missing index is defaulted to 0, so such a region is cropped from
the chunk's first page instead of being dropped. -/
theorem region_index_handling (uuid : String) (chunk : List QueuedImage)
    (info : DetectedImage) :
    (∀ idx : Int, info.originalImageIndex = some idx →
        (idx < 0 ∨ chunk.length ≤ idx.toNat) →
        buildImage uuid chunk info = none) ∧
    (info.box_2d = none → buildImage uuid chunk info = none) ∧
    (∀ (idx : Int) (source : QueuedImage) (box : Box),
        info.originalImageIndex = some idx → 0 ≤ idx →
        chunk[idx.toNat]? = some source → info.box_2d = some box →
        buildImage uuid chunk info = some
          { id := uuid,
            crop := { sourceData := source.data, sourceType := source.type,
                      box := box },
            fileName := "Auto_" ++ source.name,
            type := if info.type = "免疫组化" then "免疫组化" else "HE染色",
            magnification := match info.magnification with
                             | none => "其他"
                             | some s => if s = "" then "其他" else s,
            description := info.description.getD "" }) ∧
    (∀ (source : QueuedImage) (box : Box),
        info.originalImageIndex = none → info.box_2d = some box →
        chunk[0]? = some source →
        buildImage uuid chunk info = some
          { id := uuid,
            crop := { sourceData := source.data, sourceType := source.type,
                      box := box },
            fileName := "Auto_" ++ source.name,
            type := if info.type = "免疫组化" then "免疫组化" else "HE染色",
            magnification := match info.magnification with
                             | none => "其他"
                             | some s => if s = "" then "其他" else s,
            description := info.description.getD "" }) := by
  refine ⟨?_, ?_, ?_, ?_⟩
  · intro idx hidx hrange
    rcases hrange with hneg | hlen
    · simp [buildImage, hidx, not_le.mpr hneg]
    · simp [buildImage, hidx, List.getElem?_eq_none hlen]
  · intro hbox
    simp only [buildImage, hbox]
    cases hs : (if 0 ≤ (info.originalImageIndex.getD 0 : Int)
        then chunk[(info.originalImageIndex.getD 0).toNat]? else none) <;> rfl
  · intro idx source box hidx hnn hget hbox
    simp [buildImage, hidx, hnn, hget, hbox]
  · intro source box hidx hbox hget
    simp [buildImage, hidx, hbox, hget]

/-- Concrete instantiation of `region_index_handling`: an index of 5 into a
one-page chunk drops the region, and an in-range index 0 crops from that
chunk page. -/
theorem region_index_handling_witness :
    buildImage "u" [⟨"pid", "PAGEDATA", "image/jpeg", "p1", true⟩]
        ⟨some ⟨0, 0, 100, 100⟩, "HE染色", some "x10", some "desc", some 5⟩
      = none ∧
    buildImage "u" [⟨"pid", "PAGEDATA", "image/jpeg", "p1", true⟩]
        ⟨some ⟨0, 0, 100, 100⟩, "HE染色", some "x10", some "desc", some 0⟩
      = some { id := "u",
               crop := { sourceData := "PAGEDATA", sourceType := "image/jpeg",
                         box := ⟨0, 0, 100, 100⟩ },
               fileName := "Auto_p1", type := "HE染色",
               magnification := "x10", description := "desc" } := by
  have h1 := region_index_handling "u" [⟨"pid", "PAGEDATA", "image/jpeg", "p1", true⟩]
    ⟨some ⟨0, 0, 100, 100⟩, "HE染色", some "x10", some "desc", some 5⟩
  have h2 := region_index_handling "u" [⟨"pid", "PAGEDATA", "image/jpeg", "p1", true⟩]
    ⟨some ⟨0, 0, 100, 100⟩, "HE染色", some "x10", some "desc", some 0⟩
  refine ⟨h1.1 5 rfl (by decide), ?_⟩
  have := h2.2.2.1 0 ⟨"pid", "PAGEDATA", "image/jpeg", "p1", true⟩ ⟨0, 0, 100, 100⟩
    rfl (by decide) (by decide) rfl
  simpa using this

/-- C6 counterexample: a non-empty out-of-enum magnification string is
neither rejected nor coerced to 其他: the bare TypeScript cast passes "x50"
straight into the built `ImageRecord`, which therefore has a magnification
outside the 7-value enumeration — the claim as stated is false. -/
theorem magnification_outside_enum_counterexample :
    buildImage "u" [⟨"pid", "PAGEDATA", "image/jpeg", "p1", true⟩]
        ⟨some ⟨0, 0, 100, 100⟩, "HE染色", some "x50", some "desc", some 0⟩
      = some { id := "u",
               crop := { sourceData := "PAGEDATA", sourceType := "image/jpeg",
                         box := ⟨0, 0, 100, 100⟩ },
               fileName := "Auto_p1", type := "HE染色",
               magnification := "x50", description := "desc" } ∧
    "x50" ∉ magEnum := by
  exact ⟨by decide, by decide⟩

/-- C6 (amended): every `ImageRecord` built from a response region has a
stain type in the 2-value enumeration (any value other than 免疫组化 is
coerced to HE染色), and its magnification is coerced to 其他 exactly when
the response magnification is missing or empty (falsy); a non-empty
magnification string is passed through unchanged, so it may lie outside the
7-value enumeration. -/
theorem image_enum_coercion (uuid : String) (chunk : List QueuedImage)
    (info : DetectedImage) (r : ImageRecord)
    (h : buildImage uuid chunk info = some r) :
    r.type ∈ imageTypeEnum ∧
    ((info.magnification = none ∨ info.magnification = some "") →
        r.magnification = "其他") ∧
    (∀ s : String, info.magnification = some s → s ≠ "" →
        r.magnification = s) := by
  rw [buildImage] at h
  split at h
  case h_2 => exact absurd h (by simp)
  case h_1 source box heq1 heq2 =>
    rw [Option.some_inj] at h
    subst h
    refine ⟨?_, ?_, ?_⟩
    · by_cases ht : info.type = "免疫组化" <;> simp [imageTypeEnum, ht]
    · rintro (hm | hm) <;> simp [hm]
    · intro s hs hne
      simp [hs, hne]

/-- Concrete instantiation of `image_enum_coercion`: a region with a missing
magnification yields a record with type HE染色 (in the enumeration) and
magnification 其他. -/
theorem image_enum_coercion_witness :
    ({ id := "u",
       crop := { sourceData := "PAGEDATA", sourceType := "image/jpeg",
                 box := ⟨0, 0, 100, 100⟩ },
       fileName := "Auto_p1", type := "HE染色",
       magnification := "其他", description := "desc" } : ImageRecord).type
        ∈ imageTypeEnum ∧
    ({ id := "u",
       crop := { sourceData := "PAGEDATA", sourceType := "image/jpeg",
                 box := ⟨0, 0, 100, 100⟩ },
       fileName := "Auto_p1", type := "HE染色",
       magnification := "其他", description := "desc" } : ImageRecord).magnification
        = "其他" := by
  have h := image_enum_coercion "u" [⟨"pid", "PAGEDATA", "image/jpeg", "p1", true⟩]
    ⟨some ⟨0, 0, 100, 100⟩, "HE染色", none, some "desc", some 0⟩
    { id := "u",
      crop := { sourceData := "PAGEDATA", sourceType := "image/jpeg",
                box := ⟨0, 0, 100, 100⟩ },
      fileName := "Auto_p1", type := "HE染色",
      magnification := "其他", description := "desc" } (by decide)
  exact ⟨h.1, h.2.1 (Or.inl rfl)⟩

/-- C7: setting the diagnostic-basis sub-fields with at least one of
gross/HE/IHC non-empty serializes the whole four-field record to the
structured (JSON) form, and reading it back reconstructs the same four
sub-field values; with gross, HE and IHC all empty, the stored content
collapses to plain text equal to the general field. -/
theorem diagnostic_basis_roundtrip (b : DiagnosticBasisStructured) :
    ((b.gross ≠ "" ∨ b.he ≠ "" ∨ b.ihc ≠ "") →
        saveBasis b = .json b ∧ readBasis (saveBasis b) = b) ∧
    (b.gross = "" → b.he = "" → b.ihc = "" →
        saveBasis b = .text b.general ∧
        readBasis (saveBasis b) = ⟨"", "", "", b.general⟩) := by
  constructor
  · intro h
    have hs : saveBasis b = .json b := by simp [saveBasis, h]
    exact ⟨hs, by rw [hs]; rfl⟩
  · intro h1 h2 h3
    have hs : saveBasis b = .text b.general := by simp [saveBasis, h1, h2, h3]
    exact ⟨hs, by rw [hs]; rfl⟩

/-- Concrete instantiation of `diagnostic_basis_roundtrip` in both regimes. -/
theorem diagnostic_basis_roundtrip_witness :
    saveBasis ⟨"g", "", "", "overall"⟩ = .json ⟨"g", "", "", "overall"⟩ ∧
    readBasis (saveBasis ⟨"g", "", "", "overall"⟩) = ⟨"g", "", "", "overall"⟩ ∧
    saveBasis ⟨"", "", "", "overall"⟩ = .text "overall" := by
  have h1 := (diagnostic_basis_roundtrip ⟨"g", "", "", "overall"⟩).1
    (Or.inl (by decide))
  have h2 := (diagnostic_basis_roundtrip ⟨"", "", "", "overall"⟩).2 rfl rfl rfl
  exact ⟨h1.1, h1.2, h2.1⟩

/-- C8: the unified history view is a permutation of the union of the two
collections with each item tagged by its provenance (confirmed items first
in the pre-sort concatenation), it is sorted by timestamp descending, an
item lacking a timestamp has sort key 0 (the epoch), and a key-0 item may
follow every other item in the descending order (it sorts oldest/last). -/
theorem unified_history_spec (confirmed : List CaseRecord)
    (drafts : List DraftRecord) :
    (unifiedHistory confirmed drafts).Perm
        (confirmed.map HistoryItem.confirmedItem ++ drafts.map HistoryItem.draftItem) ∧
    (unifiedHistory confirmed drafts).Sorted histDesc ∧
    (∀ c : CaseRecord, c.submittedAt = none → itemTime (.confirmedItem c) = 0) ∧
    (∀ d : DraftRecord, d.submittedAt = none → itemTime (.draftItem d) = 0) ∧
    (∀ a b : HistoryItem, itemTime a = 0 → histDesc b a) := by
  refine ⟨List.perm_insertionSort _ _, List.sorted_insertionSort _ _, ?_, ?_, ?_⟩
  · intro c hc; simp [itemTime, hc]
  · intro d hd; simp [itemTime, hd]
  · intro a b h; simp [histDesc, h]

/-- Concrete instantiation of `unified_history_spec`: one confirmed case
with a timestamp and one timestampless draft sort newest-first with the
draft last. -/
theorem unified_history_spec_witness :
    unifiedHistory [⟨"Case-1-1", "u", none, "", [], [], some 5, none⟩]
        [⟨⟨"Case-2-2", "u", none, "", [], [], none, none⟩, "d1"⟩]
      = [.confirmedItem ⟨"Case-1-1", "u", none, "", [], [], some 5, none⟩,
         .draftItem ⟨⟨"Case-2-2", "u", none, "", [], [], none, none⟩, "d1"⟩] ∧
    itemTime (.draftItem ⟨⟨"Case-2-2", "u", none, "", [], [], none, none⟩, "d1"⟩)
      = 0 := by
  have h := unified_history_spec [⟨"Case-1-1", "u", none, "", [], [], some 5, none⟩]
    [⟨⟨"Case-2-2", "u", none, "", [], [], none, none⟩, "d1"⟩]
  exact ⟨by decide, h.2.2.2.1 _ rfl⟩

/-- C9: deleting a draft by its id removes it from the persisted draft
collection (lookup by that key finds nothing) and from the in-memory list,
and no draft item carrying that id appears in a unified-history read built
from the surviving drafts. -/
theorem draft_delete_spec (did : String) (store : List (String × DraftRecord))
    (mem : List DraftRecord) (confirmed : List CaseRecord) :
    lookupKey did (handleDraftDelete did store mem).1 = none ∧
    (∀ d ∈ (handleDraftDelete did store mem).2, d.id ≠ did) ∧
    (∀ d : DraftRecord,
        HistoryItem.draftItem d
            ∈ unifiedHistory confirmed (handleDraftDelete did store mem).2 →
        d.id ≠ did) := by
  refine ⟨lookupKey_eraseKey did store, ?_, ?_⟩
  · intro d hd
    have := List.mem_filter.mp hd
    simpa using this.2
  · intro d hd
    simp only [unifiedHistory, List.mem_insertionSort, List.mem_append] at hd
    rcases hd with hmem | hmem
    · rcases List.mem_map.mp hmem with ⟨c, _, hc⟩
      exact absurd hc (by simp)
    · rcases List.mem_map.mp hmem with ⟨d2, hd2, hinj⟩
      have : d2 = d := by injection hinj
      subst this
      have := List.mem_filter.mp hd2
      simpa using this.2

/-- Concrete instantiation of `draft_delete_spec`: deleting draft "d1"
empties both representations and the subsequent history read. -/
theorem draft_delete_spec_witness :
    lookupKey "d1"
      (handleDraftDelete "d1"
        [("d1", ⟨⟨"Case-1-1", "u", none, "", [], [], some 5, none⟩, "d1"⟩)]
        [⟨⟨"Case-1-1", "u", none, "", [], [], some 5, none⟩, "d1"⟩]).1 = none ∧
    (⟨⟨"Case-1-1", "u", none, "", [], [], some 5, none⟩, "d1"⟩ : DraftRecord).id
      ≠ "d2" := by
  have h := draft_delete_spec "d1"
    [("d1", ⟨⟨"Case-1-1", "u", none, "", [], [], some 5, none⟩, "d1"⟩)]
    [⟨⟨"Case-1-1", "u", none, "", [], [], some 5, none⟩, "d1"⟩] []
  have h2 := draft_delete_spec "d2"
    [("d1", ⟨⟨"Case-1-1", "u", none, "", [], [], some 5, none⟩, "d1"⟩)]
    [⟨⟨"Case-1-1", "u", none, "", [], [], some 5, none⟩, "d1"⟩] []
  refine ⟨h.1, h2.2.1 _ ?_⟩
  decide

theorem foldl_sections_lookup (L : TextLabel) (secs : List TextRecord) :
    ∀ acc : List (TextLabel × ExportVal),
      lookupKey L
          (secs.foldl
            (fun acc s => upsert s.label (processContent s.label s.content) acc) acc)
        = match (secs.filter (·.label = L)).getLast? with
          | some s => some (processContent L s.content)
          | none => lookupKey L acc := by
  induction secs using List.reverseRecOn with
  | nil => intro acc; rfl
  | append_singleton secs s ih =>
    intro acc
    rw [List.foldl_append, List.foldl_cons, List.foldl_nil, List.filter_append]
    by_cases hl : s.label = L
    · have hfil : List.filter (·.label = L) [s] = [s] := by simp [hl]
      rw [hfil, List.getLast?_concat, hl, lookupKey_upsert_self]
    · have hfil : List.filter (·.label = L) [s] = [] := by simp [hl]
      have hne : L ≠ s.label := fun h => hl h.symm
      rw [hfil, List.append_nil, lookupKey_upsert_ne hne, ih acc]

/-- C10: the exported `sections` object is a left fold over the record's
text sections keyed by label, so the value stored at any label is exactly
the processed content of the LAST section in list order bearing that label;
in particular, with two or more sections sharing a label, the earlier ones
are silently overwritten. -/
theorem export_sections_last_wins (secs : List TextRecord) (L : TextLabel) :
    lookupKey L (exportSections secs)
      = ((secs.filter (·.label = L)).getLast?).map
          (fun s => processContent L s.content) := by
  rw [exportSections, foldl_sections_lookup L secs []]
  cases hfin : (secs.filter (·.label = L)).getLast? <;> simp [lookupKey]
